import Mathlib

/-!
Verification of the HTTP-Web-Framework core against its specification.

The definitions below are a shallow embedding of the repository's data
model and operations: machine bytes and words are `Nat` with explicit
`% 2 ^ w` reductions, buffers are `List Nat`, strings are `List Char`,
and fallible operations return `Except`/`Option`.  Definitions carrying a
doc comment starting with `Modelled from the spec:` embed parts of the
repository whose implementation files are not present in the source tree
(only their header declarations are); they follow the specification text.
All other definitions are translated directly from the C++ sources.
-/

namespace HttpFramework

/-- Bitwise XOR of the low `k` bits of two naturals, computed bit by bit
(the bit-fuel recursion keeps every definition kernel-reducible). -/
def xorBits : Nat → Nat → Nat → Nat
  | 0, _, _ => 0
  | k + 1, a, b => (a % 2 + b % 2) % 2 + 2 * xorBits k (a / 2) (b / 2)

/-- Bitwise AND of the low `k` bits of two naturals. -/
def andBits : Nat → Nat → Nat → Nat
  | 0, _, _ => 0
  | k + 1, a, b => (a % 2) * (b % 2) + 2 * andBits k (a / 2) (b / 2)

/-- Bitwise OR of the low `k` bits of two naturals. -/
def orBits : Nat → Nat → Nat → Nat
  | 0, _, _ => 0
  | k + 1, a, b => Nat.max (a % 2) (b % 2) + 2 * orBits k (a / 2) (b / 2)

/-- Bitwise complement of a 32-bit word. -/
def not32 (x : Nat) : Nat := 2 ^ 32 - 1 - x % 2 ^ 32

/-- Rotate a 32-bit word left by `n` bits. -/
def rotl32 (n x : Nat) : Nat := x * 2 ^ n % 2 ^ 32 + x % 2 ^ 32 / 2 ^ (32 - n)

/-- The `k` big-endian bytes carrying the low `8 * k` bits of `n`. -/
def toBytesBE : Nat → Nat → List Nat
  | 0, _ => []
  | k + 1, n => toBytesBE k (n / 256) ++ [n % 256]

/-- Recombine big-endian bytes into a natural number. -/
def fromBytesBE (l : List Nat) : Nat := l.foldl (fun acc b => acc * 256 + b) 0

/-- Modelled from the spec: RFC6455-style WebSocket frame model of §4.5 and
the header declarations of `websocket::Frame` (`src/unnamed/part_008`), whose
implementation file is not in the source tree.  `fin`, three reserved bits,
a 4-bit opcode, a MASK bit, the declared 64-bit payload length, the 4-byte
masking key (`array` of bytes, zero-initialised when unused) and the payload
buffer. -/
structure Frame where
  fin : Bool
  rsv1 : Bool
  rsv2 : Bool
  rsv3 : Bool
  opcode : Nat
  masked : Bool
  payload_length : Nat
  masking_key : List Nat
  payload : List Nat
deriving DecidableEq

/-- Opcode values of `WebSocketOpcode` in `include/core/types.hpp`
(CONTINUATION 0, TEXT 1, BINARY 2, CLOSE 8, PING 9, PONG 10). -/
def is_valid_opcode (op : Nat) : Bool :=
  op == 0 || op == 1 || op == 2 || op == 8 || op == 9 || op == 10

/-- CLOSE, PING and PONG are the control opcodes. -/
def is_control_opcode (op : Nat) : Bool :=
  op == 8 || op == 9 || op == 10

/-- Modelled from the spec: frame validity (`Frame::validate` is declared but
its implementation file is absent).  Per §3 and §4.5: known opcode, declared
payload length equal to the buffered payload size, control frames carry at
most 125 payload bytes and must not be fragmented, the length fits the
64-bit length field, the masking key is 4 bytes, an unmasked frame keeps the
zero-initialised key. -/
def frame_validate (F : Frame) : Bool :=
  is_valid_opcode F.opcode
  && (!is_control_opcode F.opcode || (decide (F.payload_length ≤ 125) && F.fin))
  && decide (F.payload_length = F.payload.length)
  && decide (F.payload_length < 2 ^ 64)
  && decide (F.masking_key.length = 4)
  && (F.masked || decide (F.masking_key = [0, 0, 0, 0]))

/-- Numeric value of a flag bit. -/
def boolBit (b : Bool) : Nat := if b then 1 else 0

/-- The 7-bit length field: the length itself below 126, else the 126/127
extended-length markers. -/
def lenFieldOf (n : Nat) : Nat :=
  if n < 126 then n else if n < 65536 then 126 else 127

/-- The extended-length bytes: none below 126, 2 big-endian bytes up to
16 bits, else 8 big-endian bytes. -/
def extBytesOf (n : Nat) : List Nat :=
  if n < 126 then [] else if n < 65536 then toBytesBE 2 n else toBytesBE 8 n

/-- Modelled from the spec: `Frame::serialize` / `FrameSerializer::serialize`
(§4.5 frame model).  First byte FIN,RSV1..3,opcode; second byte MASK and the
7-bit length field; then extended length, masking key when masked, payload. -/
def frame_serialize (F : Frame) : List Nat :=
  (boolBit F.fin * 128 + boolBit F.rsv1 * 64 + boolBit F.rsv2 * 32
      + boolBit F.rsv3 * 16 + F.opcode)
    :: (boolBit F.masked * 128 + lenFieldOf F.payload_length)
    :: (extBytesOf F.payload_length
        ++ (if F.masked then F.masking_key else [])
        ++ F.payload)

/-- Error results of `FrameParser::ParseResult` reachable in a single-frame
parse (§4.5 validation failures; the stateful continuation check lives in
the connection layer). -/
inductive FrameError where
  | incomplete
  | invalid_opcode
  | control_frame_too_large
  | fragmented_control_frame
  | payload_too_large
deriving DecidableEq

/-- Read the extended payload length selected by the 7-bit length field. -/
def readExtendedLength (len7 : Nat) (rest : List Nat) :
    Except FrameError (Nat × List Nat) :=
  if len7 < 126 then Except.ok (len7, rest)
  else if len7 = 126 then
    match rest with
    | a :: b :: rest2 => Except.ok (fromBytesBE [a, b], rest2)
    | _ => Except.error FrameError.incomplete
  else
    match rest with
    | a :: b :: c :: d :: e :: f :: g :: h :: rest2 =>
        Except.ok (fromBytesBE [a, b, c, d, e, f, g, h], rest2)
    | _ => Except.error FrameError.incomplete

/-- Read the 4-byte masking key when the MASK bit is set; an unmasked frame
keeps the zero-initialised key. -/
def readMaskingKey (maskedF : Bool) (rest : List Nat) :
    Except FrameError (List Nat × List Nat) :=
  if maskedF then
    match rest with
    | a :: b :: c :: d :: rest2 => Except.ok ([a, b, c, d], rest2)
    | _ => Except.error FrameError.incomplete
  else Except.ok ([0, 0, 0, 0], rest)

/-- Modelled from the spec: single-frame parse of `Frame::parse` /
`FrameParser::parse` (§4.5 incremental parser collapsed onto a complete
input): header byte, length field, extended length, validation (unknown
opcode, control frame over 125 bytes, fragmented control frame, payload
over the configured maximum), masking key, payload; missing bytes yield
`incomplete`. -/
def frame_parse (max_payload : Nat) (data : List Nat) : Except FrameError Frame :=
  match data with
  | b0 :: b1 :: rest =>
    if is_valid_opcode (b0 % 16) then
      match readExtendedLength (b1 % 128) rest with
      | Except.error e => Except.error e
      | Except.ok (len, rest2) =>
        if is_control_opcode (b0 % 16) && decide (125 < len) then
          Except.error FrameError.control_frame_too_large
        else if is_control_opcode (b0 % 16) && !(decide (b0 / 128 % 2 = 1)) then
          Except.error FrameError.fragmented_control_frame
        else if max_payload < len then
          Except.error FrameError.payload_too_large
        else
          match readMaskingKey (decide (b1 / 128 % 2 = 1)) rest2 with
          | Except.error e => Except.error e
          | Except.ok (key, rest3) =>
            if rest3.length < len then Except.error FrameError.incomplete
            else
              Except.ok
                { fin := decide (b0 / 128 % 2 = 1)
                  rsv1 := decide (b0 / 64 % 2 = 1)
                  rsv2 := decide (b0 / 32 % 2 = 1)
                  rsv3 := decide (b0 / 16 % 2 = 1)
                  opcode := b0 % 16
                  masked := decide (b1 / 128 % 2 = 1)
                  payload_length := len
                  masking_key := key
                  payload := rest3.take len }
    else Except.error FrameError.invalid_opcode
  | _ => Except.error FrameError.incomplete

/-- Modelled from the spec: the masking loop of `Frame::apply_masking_key`
(§4.5: byte-wise XOR with the 4-byte key cycled by index `% 4`), with the
running index made explicit. -/
def apply_masking_key_from (key : List Nat) : Nat → List Nat → List Nat
  | _, [] => []
  | i, b :: rest =>
      xorBits 8 b (key.getD (i % 4) 0) :: apply_masking_key_from key (i + 1) rest

/-- Modelled from the spec: `Frame::apply_masking_key`, XORing every payload
byte with the key byte selected by its index modulo 4 (`apply_mask` and
`remove_mask` both call this one operation). -/
def apply_masking_key (data key : List Nat) : List Nat :=
  apply_masking_key_from key 0 data

/-- Group bytes into 32-bit big-endian words (SHA-1 message words). -/
def bytesToWords : List Nat → List Nat
  | b0 :: b1 :: b2 :: b3 :: rest =>
      (((b0 * 256 + b1) * 256 + b2) * 256 + b3) :: bytesToWords rest
  | _ => []

/-- Extend the 16 message words of a SHA-1 block towards the 80 scheduled
words, one word per fuel step:
`W t = rotl1 (W (t-3) xor W (t-8) xor W (t-14) xor W (t-16))`. -/
def sha1Expand : List Nat → Nat → List Nat
  | acc, 0 => acc
  | acc, k + 1 =>
      let t := acc.length
      let w := rotl32 1 (xorBits 32 (xorBits 32 (acc.getD (t - 3) 0)
          (acc.getD (t - 8) 0))
        (xorBits 32 (acc.getD (t - 14) 0) (acc.getD (t - 16) 0)))
      sha1Expand (acc ++ [w]) k

/-- The SHA-1 round constant for round `t`. -/
def sha1K (t : Nat) : Nat :=
  if t < 20 then 0x5A827999
  else if t < 40 then 0x6ED9EBA1
  else if t < 60 then 0x8F1BBCDC
  else 0xCA62C1D6

/-- The SHA-1 round function for round `t` (choice, parity, majority). -/
def sha1F (t b c d : Nat) : Nat :=
  if t < 20 then orBits 32 (andBits 32 b c) (andBits 32 (not32 b) d)
  else if t < 40 then xorBits 32 (xorBits 32 b c) d
  else if t < 60 then
    orBits 32 (orBits 32 (andBits 32 b c) (andBits 32 b d)) (andBits 32 c d)
  else xorBits 32 (xorBits 32 b c) d

/-- One SHA-1 round on the five-word working state. -/
def sha1Round (st : Nat × Nat × Nat × Nat × Nat) (tw : Nat × Nat) :
    Nat × Nat × Nat × Nat × Nat :=
  let (a, b, c, d, e) := st
  let (t, w) := tw
  ((rotl32 5 a + sha1F t b c d + e + sha1K t + w) % 2 ^ 32, a, rotl32 30 b, c, d)

/-- Process one 64-byte SHA-1 block, updating the five-word digest state. -/
def sha1Block (h : List Nat) (block : List Nat) : List Nat :=
  let ws := sha1Expand (bytesToWords block) 64
  let init := (h.getD 0 0, h.getD 1 0, h.getD 2 0, h.getD 3 0, h.getD 4 0)
  let fin := ((List.range 80).zip ws).foldl sha1Round init
  [(h.getD 0 0 + fin.1) % 2 ^ 32,
   (h.getD 1 0 + fin.2.1) % 2 ^ 32,
   (h.getD 2 0 + fin.2.2.1) % 2 ^ 32,
   (h.getD 3 0 + fin.2.2.2.1) % 2 ^ 32,
   (h.getD 4 0 + fin.2.2.2.2) % 2 ^ 32]

/-- Fold the SHA-1 compression over `nblocks` consecutive 64-byte blocks. -/
def sha1Blocks (h : List Nat) (data : List Nat) : Nat → List Nat
  | 0 => h
  | k + 1 => sha1Blocks (sha1Block h (data.take 64)) (data.drop 64) k

/-- SHA-1 of a byte list: standard padding (a 0x80 byte, zeros to 56 mod 64,
the 64-bit big-endian bit length), block compression from the standard
initialisation vector, big-endian digest bytes. -/
def sha1 (msg : List Nat) : List Nat :=
  let len := msg.length
  let padZeros := (64 + 56 - (len + 1) % 64) % 64
  let padded := msg ++ 128 :: (List.replicate padZeros 0 ++ toBytesBE 8 (len * 8))
  let hs := sha1Blocks
    [0x67452301, 0xEFCDAB89, 0x98BADCFE, 0x10325476, 0xC3D2E1F0]
    padded (padded.length / 64)
  hs.foldr (fun w acc => toBytesBE 4 w ++ acc) []

/-- The base64 alphabet. -/
def base64Alphabet : List Char :=
  "ABCDEFGHIJKLMNOPQRSTUVWXYZabcdefghijklmnopqrstuvwxyz0123456789+/".toList

/-- The base64 character of a 6-bit value. -/
def b64c (n : Nat) : Char := base64Alphabet.getD n 'A'

/-- Standard base64 encoding of a byte list with `=` padding. -/
def base64_encode : List Nat → List Char
  | b0 :: b1 :: b2 :: rest =>
      b64c (b0 / 4) :: b64c (b0 % 4 * 16 + b1 / 16)
        :: b64c (b1 % 16 * 4 + b2 / 64) :: b64c (b2 % 64) :: base64_encode rest
  | [b0, b1] =>
      [b64c (b0 / 4), b64c (b0 % 4 * 16 + b1 / 16), b64c (b1 % 16 * 4), '=']
  | [b0] => [b64c (b0 / 4), b64c (b0 % 4 * 16), '=', '=']
  | [] => []

/-- The fixed GUID `WebSocketHandshake::WEBSOCKET_MAGIC_STRING`. -/
def WEBSOCKET_MAGIC_STRING : List Char :=
  "258EAFA5-E914-47DA-95CA-C5AB0DC85B11".toList

/-- Modelled from the spec: `WebSocket::calculate_accept_key` /
`WebSocketHandshake::generate_websocket_accept` (declared in
`src/unnamed/part_008`, implementation file absent): base64 of the SHA-1
digest of the client key concatenated with the fixed GUID. -/
def calculate_accept_key (key : List Char) : List Char :=
  base64_encode (sha1 ((key ++ WEBSOCKET_MAGIC_STRING).map Char.toNat))

/-- `HttpMethod` of `include/core/types.hpp`. -/
inductive HttpMethod where
  | GET | POST | PUT | DELETE | PATCH | HEAD | OPTIONS | TRACE | CONNECT
deriving DecidableEq

/-- `HttpVersion` of `include/core/types.hpp`. -/
inductive HttpVersion where
  | HTTP_1_0 | HTTP_1_1 | HTTP_2_0 | HTTP_3_0
deriving DecidableEq

/-- The fields of `http::Request` (`include/http/request.hpp`) the verified
operations touch: method, URI, version (default `HTTP_1_1`), the header
vector of normalized-name/value pairs, and the body buffer.  Names and
values are `List Char`; body bytes are `Nat`. -/
structure Request where
  method : HttpMethod := HttpMethod.GET
  uri : List Char := []
  version : HttpVersion := HttpVersion.HTTP_1_1
  headers : List (List Char × List Char) := []
  body : List Nat := []
deriving DecidableEq

/-- `std::tolower` on an ASCII character, as used by
`Request::normalize_header_name`. -/
def tolowerChar (c : Char) : Char :=
  if 'A' ≤ c ∧ c ≤ 'Z' then Char.ofNat (c.toNat + 32) else c

/-- `Request::normalize_header_name` (`src/http/request.cpp`): lower-case
every character of the header name. -/
def normalize_header_name (name : List Char) : List Char :=
  name.map tolowerChar

/-- `Request::add_header`: append the pair with the normalized name. -/
def add_header (r : Request) (name value : List Char) : Request :=
  { r with headers := r.headers ++ [(normalize_header_name name, value)] }

/-- `Request::get_header`: the value of the first header whose stored name
equals the normalized lookup name. -/
def get_header (r : Request) (name : List Char) : Option (List Char) :=
  ((r.headers.find? (fun h => h.1 == normalize_header_name name)).map
    (fun h => h.2))

/-- `std::string::find(needle) != npos`: the needle occurs as a contiguous
substring (an empty needle is always found). -/
def hasSubstr (needle : List Char) : List Char → Bool
  | [] => needle.isEmpty
  | c :: rest => needle.isPrefixOf (c :: rest) || hasSubstr needle rest

/-- `Request::is_chunked`: a `Transfer-Encoding` header exists and its value
contains `chunked`. -/
def is_chunked (r : Request) : Bool :=
  match get_header r "Transfer-Encoding".toList with
  | some v => hasSubstr "chunked".toList v
  | none => false

/-- `Request::is_keep_alive`: with a `Connection` header, whether its value
contains `keep-alive`, else whether the version is `HTTP_1_1`. -/
def is_keep_alive (r : Request) : Bool :=
  match get_header r "Connection".toList with
  | some v => hasSubstr "keep-alive".toList v
  | none => r.version == HttpVersion.HTTP_1_1

/-- `std::isspace` in the default locale, on the ASCII characters. -/
def isSpaceChar (c : Char) : Bool :=
  c == ' ' || c == '\t' || c == '\n' || c == Char.ofNat 11
    || c == Char.ofNat 12 || c == '\r'

/-- Split at every newline, accumulating the current segment. -/
def splitLinesAux : List Char → List Char → List (List Char)
  | [], acc => [acc.reverse]
  | c :: cs, acc =>
      if c = '\n' then acc.reverse :: splitLinesAux cs []
      else splitLinesAux cs (c :: acc)

/-- The `while (std::getline(stream, line))` loop of `Request::from_string`:
segments up to each newline; a trailing newline does not produce an extra
empty line; an empty input produces no lines. -/
def getlineSplit (s : List Char) : List (List Char) :=
  if s.isEmpty then []
  else if s.getLast? = some '\n' then (splitLinesAux s []).dropLast
  else splitLinesAux s []

/-- Drop the trailing carriage return, as the line loop of
`Request::from_string` does. -/
def chompCR (l : List Char) : List Char :=
  if l.getLast? = some '\r' then l.dropLast else l

/-- The line list `Request::from_string` works on. -/
def requestLines (s : List Char) : List (List Char) :=
  (getlineSplit s).map chompCR

/-- Whitespace-separated token extraction, as `std::istringstream` with
`operator>>` performs on the request line. -/
def splitWSAux : List Char → List Char → List (List Char)
  | [], acc => if acc.isEmpty then [] else [acc.reverse]
  | c :: cs, acc =>
      if isSpaceChar c then
        if acc.isEmpty then splitWSAux cs []
        else acc.reverse :: splitWSAux cs []
      else splitWSAux cs (c :: acc)

/-- The tokens of the request line. -/
def tokensOf (l : List Char) : List (List Char) :=
  splitWSAux l []

/-- The method-string dispatch of `Request::from_string`; an unrecognized
method leaves the default `GET`. -/
def methodOfString (s : List Char) : HttpMethod :=
  if s = "GET".toList then HttpMethod.GET
  else if s = "POST".toList then HttpMethod.POST
  else if s = "PUT".toList then HttpMethod.PUT
  else if s = "DELETE".toList then HttpMethod.DELETE
  else if s = "PATCH".toList then HttpMethod.PATCH
  else if s = "HEAD".toList then HttpMethod.HEAD
  else if s = "OPTIONS".toList then HttpMethod.OPTIONS
  else HttpMethod.GET

/-- The version-string dispatch of `Request::from_string`; an unrecognized
version leaves the default `HTTP_1_1`. -/
def versionOfString (s : List Char) : HttpVersion :=
  if s = "HTTP/1.0".toList then HttpVersion.HTTP_1_0
  else if s = "HTTP/1.1".toList then HttpVersion.HTTP_1_1
  else HttpVersion.HTTP_1_1

/-- The left/right whitespace trim applied to a header value. -/
def trimValue (v : List Char) : List Char :=
  ((v.dropWhile isSpaceChar).reverse.dropWhile isSpaceChar).reverse

/-- One header line: split at the first colon, trim the value, add the
header; a line without a colon is skipped. -/
def headerFromLine (r : Request) (l : List Char) : Request :=
  let name := l.takeWhile (fun c => c != ':')
  match l.dropWhile (fun c => c != ':') with
  | [] => r
  | _ :: valueRaw => add_header r name (trimValue valueRaw)

/-- The header loop of `Request::from_string`: lines after the request line
up to the first empty line. -/
def addHeaderLines : Request → List (List Char) → Request
  | r, [] => r
  | r, l :: rest =>
      if l.isEmpty then r else addHeaderLines (headerFromLine r l) rest

/-- The `header_end` variable of `Request::from_string`: the index of the
first empty line at position 1 or later, and 1 when no line is empty. -/
def headerEndIdx (lines : List (List Char)) : Nat :=
  match (lines.drop 1).findIdx? (fun l => l.isEmpty) with
  | some i => i + 1
  | none => 1

/-- The body-assembly loop of `Request::from_string`: remaining lines joined
with a newline between consecutive lines. -/
def joinLines : List (List Char) → List Char
  | [] => []
  | [l] => l
  | l :: l2 :: rest => l ++ '\n' :: joinLines (l2 :: rest)

/-- `Request::from_string` (`src/http/request.cpp`): split into lines, parse
the request line, parse header lines up to the first empty line, and take
every line after `header_end` as the body.  The function never fails, and
neither `Content-Length` nor `Transfer-Encoding` influences the body. -/
def from_string (s : List Char) : Request :=
  let lines := requestLines s
  if lines.isEmpty then {} else
  let tokens := tokensOf (lines.headD [])
  let r0 : Request :=
    { method := methodOfString (tokens.getD 0 [])
      uri := tokens.getD 1 []
      version := versionOfString (tokens.getD 2 []) }
  let r1 := addHeaderLines r0 (lines.drop 1)
  { r1 with
    body := (joinLines (lines.drop (headerEndIdx lines + 1))).map Char.toNat }

/-- The fields of `http::Response` (`src/unnamed/part_007`) that
`Response::is_complete` reads: status code (default 200) and body buffer. -/
structure Response where
  status_code : Nat := 200
  body : List Nat := []
deriving DecidableEq

/-- `Response::is_complete` (`src/http/response.cpp`): non-empty body, or a
204 or 304 status code. -/
def is_complete (r : Response) : Bool :=
  !r.body.isEmpty || r.status_code == 204 || r.status_code == 304

/-- Modelled from the spec: the `Middleware::handle` contract of §4.6 and
`src/unnamed/part_006` — a middleware receives the request, the current
response and a `next` continuation running the remainder of the chain, and
returns the resulting response (state passing replaces the in-place
mutation of `Response&`). -/
abbrev MiddlewareFn := Request → Response → (Response → Response) → Response

/-- Modelled from the spec: `MiddlewareChain::execute_next` (declared in
`src/unnamed/part_006`, implementation file absent): run the middleware at
the current position with a continuation that executes the rest of the
chain, the final handler running when the chain is exhausted. -/
def execute_next : List MiddlewareFn → Request → Response →
    (Response → Response) → Response
  | [], _, res, final_handler => final_handler res
  | m :: rest, req, res, final_handler =>
      m req res (fun res2 => execute_next rest req res2 final_handler)

/-- Modelled from the spec: `MiddlewareChain::execute` starts the chain at
position 0. -/
def chain_execute (chain : List MiddlewareFn) (req : Request) (res : Response)
    (final_handler : Response → Response) : Response :=
  execute_next chain req res final_handler

/-- A middleware that transforms the response and invokes `next` on the
result. -/
def passThroughMiddleware (f : Request → Response → Response) : MiddlewareFn :=
  fun req res next => next (f req res)

/-- A middleware that never invokes its `next` continuation: it returns the
response it sets. -/
def shortCircuitMiddleware (f : Request → Response → Response) : MiddlewareFn :=
  fun req res _ => f req res

/-- `async::Promise` (`src/unnamed/part_004`): `ptr` models the
`unique_ptr<std::promise>` member being non-null, `state` the shared state
of the underlying `std::promise` (`none` until a result is stored, then the
value or the stored exception, the latter as its message). -/
structure Promise (T : Type) where
  ptr : Bool
  state : Option (Except (List Char) T)

/-- A freshly constructed promise: live pointer, no stored result. -/
def Promise.fresh {T : Type} : Promise T := ⟨true, none⟩

/-- `Promise::set_value`: a null pointer raises `Promise is not valid`; an
already-satisfied shared state raises `Promise already satisfied`;
otherwise the value is stored and the pointer is reset. -/
def set_value {T : Type} (p : Promise T) (v : T) :
    Except (List Char) (Promise T) :=
  if p.ptr = false then Except.error "Promise is not valid".toList
  else match p.state with
    | some _ => Except.error "Promise already satisfied".toList
    | none => Except.ok ⟨false, some (Except.ok v)⟩

/-- `Promise::set_exception`: same structure as `set_value`, storing the
exception. -/
def set_exception {T : Type} (p : Promise T) (e : List Char) :
    Except (List Char) (Promise T) :=
  if p.ptr = false then Except.error "Promise is not valid".toList
  else match p.state with
    | some _ => Except.error "Promise already satisfied".toList
    | none => Except.ok ⟨false, some (Except.error e)⟩

/-! ## Theorems -/

theorem xorBits_lt (k : Nat) : ∀ a b : Nat, xorBits k a b < 2 ^ k := by
  induction k with
  | zero => intro a b; simp [xorBits]
  | succ k ih =>
    intro a b
    have h := ih (a / 2) (b / 2)
    have h2 : (a % 2 + b % 2) % 2 < 2 := Nat.mod_lt _ (by omega)
    simp only [xorBits, Nat.pow_succ]
    omega

theorem xorBits_involutive (k : Nat) :
    ∀ a b : Nat, a < 2 ^ k → xorBits k (xorBits k a b) b = a := by
  induction k with
  | zero => intro a b ha; simp [xorBits]; omega
  | succ k ih =>
    intro a b ha
    have hdiv : a / 2 < 2 ^ k := by
      have : (2 : Nat) ^ (k + 1) = 2 ^ k * 2 := by ring
      omega
    have hrec := ih (a / 2) (b / 2) hdiv
    have hb2 : (a % 2 + b % 2) % 2 < 2 := Nat.mod_lt _ (by omega)
    simp only [xorBits]
    have hlow : ((a % 2 + b % 2) % 2 + 2 * xorBits k (a / 2) (b / 2)) % 2
        = (a % 2 + b % 2) % 2 := by omega
    have hhigh : ((a % 2 + b % 2) % 2 + 2 * xorBits k (a / 2) (b / 2)) / 2
        = xorBits k (a / 2) (b / 2) := by omega
    rw [hlow, hhigh, hrec]
    have ha2 : a % 2 < 2 := Nat.mod_lt _ (by omega)
    have hb2' : b % 2 < 2 := Nat.mod_lt _ (by omega)
    omega

theorem toBytesBE_length (k : Nat) : ∀ n : Nat, (toBytesBE k n).length = k := by
  induction k with
  | zero => intro n; simp [toBytesBE]
  | succ k ih => intro n; simp [toBytesBE, ih]

theorem fromBytesBE_toBytesBE (k : Nat) :
    ∀ n : Nat, fromBytesBE (toBytesBE k n) = n % 256 ^ k := by
  induction k with
  | zero => intro n; simp [toBytesBE, fromBytesBE, Nat.mod_one]
  | succ k ih =>
    intro n
    have step : fromBytesBE (toBytesBE k (n / 256) ++ [n % 256])
        = fromBytesBE (toBytesBE k (n / 256)) * 256 + n % 256 := by
      simp [fromBytesBE, List.foldl_append]
    have hmul : n % (256 * 256 ^ k) = n % 256 + 256 * (n / 256 % 256 ^ k) :=
      Nat.mod_mul
    calc fromBytesBE (toBytesBE (k + 1) n)
        = fromBytesBE (toBytesBE k (n / 256)) * 256 + n % 256 := step
      _ = (n / 256 % 256 ^ k) * 256 + n % 256 := by rw [ih]
      _ = n % (256 * 256 ^ k) := by omega
      _ = n % 256 ^ (k + 1) := by ring_nf

theorem apply_masking_key_from_getD (key : List Nat) :
    ∀ (p : List Nat) (i j : Nat), j < p.length →
      (apply_masking_key_from key i p).getD j 0
        = xorBits 8 (p.getD j 0) (key.getD ((i + j) % 4) 0) := by
  intro p
  induction p with
  | nil => intro i j hj; simp at hj
  | cons b rest ih =>
    intro i j hj
    cases j with
    | zero => simp [apply_masking_key_from]
    | succ j =>
      have hj' : j < rest.length := by simpa using hj
      have := ih (i + 1) j hj'
      simpa [apply_masking_key_from, Nat.add_assoc, Nat.add_comm 1 j]
        using this

theorem apply_masking_key_from_involutive (key : List Nat) :
    ∀ (p : List Nat) (i : Nat), (∀ b ∈ p, b < 256) →
      apply_masking_key_from key i (apply_masking_key_from key i p) = p := by
  intro p
  induction p with
  | nil => intro i _; simp [apply_masking_key_from]
  | cons b rest ih =>
    intro i hp
    have hb : b < 256 := hp b (by simp)
    have hrest : ∀ x ∈ rest, x < 256 := fun x hx => hp x (by simp [hx])
    simp only [apply_masking_key_from]
    rw [xorBits_involutive 8 b (key.getD (i % 4) 0) hb, ih (i + 1) hrest]

theorem toBytesBE_two (n : Nat) : toBytesBE 2 n = [n / 256 % 256, n % 256] := by
  simp [toBytesBE]

theorem toBytesBE_eight (n : Nat) :
    toBytesBE 8 n
      = [n / 256 ^ 7 % 256, n / 256 ^ 6 % 256, n / 256 ^ 5 % 256,
         n / 256 ^ 4 % 256, n / 256 ^ 3 % 256, n / 256 ^ 2 % 256,
         n / 256 % 256, n % 256] := by
  simp [toBytesBE, Nat.div_div_eq_div_mul]

theorem readExtendedLength_of_serialize (plen : Nat) (h64 : plen < 2 ^ 64)
    (tail : List Nat) :
    readExtendedLength (lenFieldOf plen) (extBytesOf plen ++ tail)
      = Except.ok (plen, tail) := by
  by_cases h1 : plen < 126
  · simp [lenFieldOf, extBytesOf, readExtendedLength, h1]
  · by_cases h2 : plen < 65536
    · have hexp : extBytesOf plen ++ tail
          = (plen / 256 % 256) :: (plen % 256) :: tail := by
        simp [extBytesOf, h1, h2, toBytesBE_two]
      have hval : fromBytesBE [plen / 256 % 256, plen % 256] = plen := by
        rw [← toBytesBE_two, fromBytesBE_toBytesBE]
        exact Nat.mod_eq_of_lt (by norm_num; omega)
      simp [lenFieldOf, h1, h2, readExtendedLength, hexp, hval]
    · have hexp : extBytesOf plen ++ tail
          = (plen / 256 ^ 7 % 256) :: (plen / 256 ^ 6 % 256)
            :: (plen / 256 ^ 5 % 256) :: (plen / 256 ^ 4 % 256)
            :: (plen / 256 ^ 3 % 256) :: (plen / 256 ^ 2 % 256)
            :: (plen / 256 % 256) :: (plen % 256) :: tail := by
        simp [extBytesOf, h1, h2, toBytesBE_eight]
      have hval : fromBytesBE
          [plen / 256 ^ 7 % 256, plen / 256 ^ 6 % 256, plen / 256 ^ 5 % 256,
           plen / 256 ^ 4 % 256, plen / 256 ^ 3 % 256, plen / 256 ^ 2 % 256,
           plen / 256 % 256, plen % 256] = plen := by
        rw [← toBytesBE_eight, fromBytesBE_toBytesBE]
        exact Nat.mod_eq_of_lt (by norm_num; omega)
      norm_num at hval
      simp [lenFieldOf, h1, h2, readExtendedLength, hexp, hval]

theorem readMaskingKey_of_serialize (masked : Bool) (key tail : List Nat)
    (hkey : key.length = 4) (hunm : masked = false → key = [0, 0, 0, 0]) :
    readMaskingKey masked ((if masked then key else []) ++ tail)
      = Except.ok (key, tail) := by
  cases masked with
  | false => simp [readMaskingKey, hunm rfl]
  | true =>
    rcases key with _ | ⟨k0, _ | ⟨k1, _ | ⟨k2, _ | ⟨k3, rest⟩⟩⟩⟩ <;>
      simp_all [readMaskingKey]

/-- Claim C1: for every valid WebSocket frame, parsing the byte sequence
produced by serializing it yields the frame back, preserving fin, rsv bits,
opcode, masked flag, declared payload length, masking key and payload. -/
theorem frame_parse_serialize_roundtrip (max_payload : Nat) (F : Frame)
    (hv : frame_validate F = true) (hm : F.payload_length ≤ max_payload) :
    frame_parse max_payload (frame_serialize F) = Except.ok F := by
  obtain ⟨fin, rsv1, rsv2, rsv3, op, masked, plen, key, payload⟩ := F
  simp only [frame_validate, Bool.and_eq_true, Bool.or_eq_true,
    Bool.not_eq_true', decide_eq_true_eq] at hv
  obtain ⟨⟨⟨⟨⟨hop, hctl⟩, hlen⟩, h64⟩, hkey⟩, hmk⟩ := hv
  simp only at hm hop hctl hlen h64 hkey hmk
  have hf : boolBit fin ≤ 1 := by cases fin <;> simp [boolBit]
  have hr1 : boolBit rsv1 ≤ 1 := by cases rsv1 <;> simp [boolBit]
  have hr2 : boolBit rsv2 ≤ 1 := by cases rsv2 <;> simp [boolBit]
  have hr3 : boolBit rsv3 ≤ 1 := by cases rsv3 <;> simp [boolBit]
  have hmb : boolBit masked ≤ 1 := by cases masked <;> simp [boolBit]
  have hople : op < 16 := by
    simp only [is_valid_opcode, Bool.or_eq_true, beq_iff_eq] at hop
    rcases hop with h | h | h | h | h | h <;> omega
  have hlenf : lenFieldOf plen ≤ 127 := by
    simp only [lenFieldOf]; split_ifs <;> omega
  set b0 := boolBit fin * 128 + boolBit rsv1 * 64 + boolBit rsv2 * 32
      + boolBit rsv3 * 16 + op with hb0def
  set b1 := boolBit masked * 128 + lenFieldOf plen with hb1def
  have hb0op : b0 % 16 = op := by omega
  have hb0f : b0 / 128 % 2 = boolBit fin := by omega
  have hb0r1 : b0 / 64 % 2 = boolBit rsv1 := by omega
  have hb0r2 : b0 / 32 % 2 = boolBit rsv2 := by omega
  have hb0r3 : b0 / 16 % 2 = boolBit rsv3 := by omega
  have hb1m : b1 / 128 % 2 = boolBit masked := by omega
  have hb1l : b1 % 128 = lenFieldOf plen := by omega
  have hdec : ∀ b : Bool, decide (boolBit b = 1) = b := by
    intro b; cases b <;> simp [boolBit]
  have hser : frame_serialize ⟨fin, rsv1, rsv2, rsv3, op, masked, plen, key, payload⟩
      = b0 :: b1 :: (extBytesOf plen
          ++ ((if masked then key else []) ++ payload)) := by
    simp [frame_serialize, List.append_assoc]
  rw [hser]
  have hunm : masked = false → key = [0, 0, 0, 0] := by
    intro hfm
    rcases hmk with h | h
    · rw [hfm] at h; exact absurd h (by simp)
    · exact h
  have hcond1 : (is_control_opcode op && decide (125 < plen)) = false := by
    rcases hctl with h | ⟨h1, h2⟩
    · simp [h]
    · simp; omega
  have hcond2 : (is_control_opcode op && !(decide (b0 / 128 % 2 = 1))) = false := by
    rw [hb0f, hdec]
    rcases hctl with h | ⟨h1, h2⟩
    · simp [h]
    · simp [h2]
  simp only [frame_parse, hb0op, hop, if_true, hb1l,
    readExtendedLength_of_serialize plen h64, hcond1, hcond2, hb1m, hdec,
    readMaskingKey_of_serialize masked key payload hkey hunm,
    Bool.false_eq_true, if_false]
  rw [if_neg (by omega)]
  rw [if_neg (by omega)]
  have htake : payload.take plen = payload := by
    rw [hlen]; simp
  simp only [htake, hb0f, hb0r1, hb0r2, hb0r3, hdec, Except.ok.injEq]

/-- Witness for C1: a concrete masked binary frame with a 3-byte payload
survives the serialize/parse round trip. -/
theorem frame_parse_serialize_roundtrip_witness :
    frame_parse 1024 (frame_serialize
      ⟨true, false, false, false, 2, true, 3, [10, 20, 30, 40], [5, 6, 7]⟩)
      = Except.ok
        ⟨true, false, false, false, 2, true, 3, [10, 20, 30, 40], [5, 6, 7]⟩ :=
  frame_parse_serialize_roundtrip 1024
    ⟨true, false, false, false, 2, true, 3, [10, 20, 30, 40], [5, 6, 7]⟩
    (by decide) (by decide)

/-- Claim C4: a close, ping or pong frame whose payload length exceeds 125
bytes fails validation, and parsing its serialized bytes yields the
control-frame protocol error, never a successful parse. -/
theorem control_frame_oversize_protocol_error (max_payload : Nat) (F : Frame)
    (hctl : is_control_opcode F.opcode = true)
    (hlen : 125 < F.payload_length) (h64 : F.payload_length < 2 ^ 64) :
    frame_validate F = false
    ∧ frame_parse max_payload (frame_serialize F)
        = Except.error FrameError.control_frame_too_large := by
  obtain ⟨fin, rsv1, rsv2, rsv3, op, masked, plen, key, payload⟩ := F
  simp only at hctl hlen h64
  have hopv : op = 8 ∨ op = 9 ∨ op = 10 := by
    simp only [is_control_opcode, Bool.or_eq_true, beq_iff_eq] at hctl
    tauto
  have hop : is_valid_opcode op = true := by
    rcases hopv with h | h | h <;> simp [is_valid_opcode, h]
  have hople : op < 16 := by rcases hopv with h | h | h <;> omega
  constructor
  · simp only [frame_validate, hctl, Bool.not_true, Bool.false_or]
    have h1 : decide (plen ≤ 125) = false := by simp; omega
    simp [h1]
  · have hf : boolBit fin ≤ 1 := by cases fin <;> simp [boolBit]
    have hr1 : boolBit rsv1 ≤ 1 := by cases rsv1 <;> simp [boolBit]
    have hr2 : boolBit rsv2 ≤ 1 := by cases rsv2 <;> simp [boolBit]
    have hr3 : boolBit rsv3 ≤ 1 := by cases rsv3 <;> simp [boolBit]
    have hmb : boolBit masked ≤ 1 := by cases masked <;> simp [boolBit]
    have hlenf : lenFieldOf plen ≤ 127 := by
      simp only [lenFieldOf]; split_ifs <;> omega
    set b0 := boolBit fin * 128 + boolBit rsv1 * 64 + boolBit rsv2 * 32
        + boolBit rsv3 * 16 + op with hb0def
    set b1 := boolBit masked * 128 + lenFieldOf plen with hb1def
    have hb0op : b0 % 16 = op := by omega
    have hb1l : b1 % 128 = lenFieldOf plen := by omega
    have hser : frame_serialize
        ⟨fin, rsv1, rsv2, rsv3, op, masked, plen, key, payload⟩
        = b0 :: b1 :: (extBytesOf plen
            ++ ((if masked then key else []) ++ payload)) := by
      simp [frame_serialize, List.append_assoc]
    rw [hser]
    have hcond1 : (is_control_opcode op && decide (125 < plen)) = true := by
      simp [hctl]; omega
    simp only [frame_parse, hb0op, hop, if_true, hb1l,
      readExtendedLength_of_serialize plen h64, hcond1, if_true]

/-- Witness for C4: a 126-byte ping frame is rejected by validation and by
the parser. -/
theorem control_frame_oversize_protocol_error_witness :
    frame_validate
        ⟨true, false, false, false, 9, false, 126, [0, 0, 0, 0],
          List.replicate 126 0⟩ = false
    ∧ frame_parse 1048576 (frame_serialize
        ⟨true, false, false, false, 9, false, 126, [0, 0, 0, 0],
          List.replicate 126 0⟩)
        = Except.error FrameError.control_frame_too_large :=
  control_frame_oversize_protocol_error 1048576
    ⟨true, false, false, false, 9, false, 126, [0, 0, 0, 0],
      List.replicate 126 0⟩
    (by decide) (by decide) (by decide)

/-- Claim C2: masking is the byte-wise XOR of the payload with the 4-byte
key cycled by index `% 4`, and applying the masking operation twice with
the same key restores the original payload. -/
theorem masking_xor_roundtrip (p key : List Nat) (hp : ∀ b ∈ p, b < 256) :
    apply_masking_key (apply_masking_key p key) key = p
    ∧ ∀ j, j < p.length →
        (apply_masking_key p key).getD j 0
          = xorBits 8 (p.getD j 0) (key.getD (j % 4) 0) := by
  constructor
  · exact apply_masking_key_from_involutive key p 0 hp
  · intro j hj
    simpa using apply_masking_key_from_getD key p 0 j hj

/-- Witness for C2 at a concrete payload and key. -/
theorem masking_xor_roundtrip_witness :
    apply_masking_key (apply_masking_key [7, 200, 255, 3, 99] [1, 2, 3, 4])
      [1, 2, 3, 4] = [7, 200, 255, 3, 99] :=
  (masking_xor_roundtrip [7, 200, 255, 3, 99] [1, 2, 3, 4] (by decide)).1

/-- Claim C3: the WebSocket handshake accept key for a client key `k` is
base64 of the SHA-1 digest of `k` concatenated with the fixed GUID, and the
RFC 6455 vector key yields exactly the expected accept key. -/
theorem websocket_accept_key_spec :
    (∀ k : List Char, calculate_accept_key k
        = base64_encode (sha1 ((k ++ WEBSOCKET_MAGIC_STRING).map Char.toNat)))
    ∧ calculate_accept_key "dGhlIHNhbXBsZSBub25jZQ==".toList
        = "s3pPLMBiTxaQ9kYGzzhZRbK+xOo=".toList := by
  refine ⟨fun k => rfl, ?_⟩
  set_option maxRecDepth 10000 in decide

/-- Counterexample to C5 as stated: this raw request carries neither a
`Content-Length` header nor chunked transfer encoding, yet
`Request::from_string` parses a non-empty body — the bytes after the blank
line are taken as the body unconditionally. -/
theorem from_string_headerless_body_counterexample :
    get_header (from_string "GET / HTTP/1.1\r\n\r\nhello".toList)
        "Content-Length".toList = none
    ∧ is_chunked (from_string "GET / HTTP/1.1\r\n\r\nhello".toList) = false
    ∧ (from_string "GET / HTTP/1.1\r\n\r\nhello".toList).body ≠ [] := by
  decide

/-- Claim C5 (amended): `Request::from_string` never fails and ignores
`Content-Length` and `Transfer-Encoding` entirely; the body is exactly the
data after the first blank line, so whenever nothing follows the blank-line
terminator — in particular for a header-only request without either header
— the parsed body is empty. -/
theorem from_string_body_empty_no_trailing_data (s : List Char)
    (h : (requestLines s).length ≤ headerEndIdx (requestLines s) + 1) :
    (from_string s).body = [] := by
  unfold from_string
  by_cases he : (requestLines s).isEmpty
  · simp [he]
  · have hdrop : (requestLines s).drop (headerEndIdx (requestLines s) + 1)
        = [] := List.drop_eq_nil_of_le h
    simp [he, hdrop, joinLines]

/-- Witness for the amended C5 on a concrete header-only request. -/
theorem from_string_body_empty_no_trailing_data_witness :
    (from_string "GET / HTTP/1.1\r\nHost: x\r\n\r\n".toList).body = [] :=
  from_string_body_empty_no_trailing_data
    "GET / HTTP/1.1\r\nHost: x\r\n\r\n".toList (by decide)

/-- Counterexample to C6 as stated: when a header with the same normalized
name already exists, `Request::get_header` returns the first stored value,
not the newly added one. -/
theorem header_lookup_duplicate_counterexample :
    get_header (add_header
        (from_string "GET / HTTP/1.1\r\nX-Test: 1\r\n\r\n".toList)
        "X-Test".toList "2".toList) "x-test".toList = some "1".toList
    ∧ ("1".toList : List Char) ≠ "2".toList := by
  decide

theorem find?_append_fresh (nn : List Char) (V : List Char) :
    ∀ l : List (List Char × List Char), (∀ h ∈ l, h.1 ≠ nn) →
      List.find? (fun h => h.1 == nn) (l ++ [(nn, V)]) = some (nn, V) := by
  intro l
  induction l with
  | nil => simp
  | cons a as ih =>
    intro hl
    have ha : a.1 ≠ nn := hl a (by simp)
    have hrest : ∀ h ∈ as, h.1 ≠ nn := fun h hh => hl h (by simp [hh])
    have hb : (a.1 == nn) = false := by simp [ha]
    simp [List.find?, ha, hb, ih hrest]

/-- Claim C6 (amended): `add_header` stores the lower-cased form of the
name; when no earlier header shares that normalized name, `get_header`
returns the added value for every lookup name equal to it up to letter
case (lookups of duplicated names return the first stored value). -/
theorem header_storage_case_insensitive (r : Request) (N V M : List Char)
    (hfresh : ∀ h ∈ r.headers, h.1 ≠ normalize_header_name N)
    (hcase : normalize_header_name M = normalize_header_name N) :
    (add_header r N V).headers
      = r.headers ++ [(normalize_header_name N, V)]
    ∧ get_header (add_header r N V) M = some V := by
  refine ⟨rfl, ?_⟩
  unfold get_header add_header
  simp only [hcase]
  rw [find?_append_fresh (normalize_header_name N) V r.headers hfresh]
  rfl

/-- Witness for the amended C6: adding `X-Test` to a fresh request and
looking it up as `x-TEST`. -/
theorem header_storage_case_insensitive_witness :
    (add_header ({} : Request) "X-Test".toList "2".toList).headers
      = ([] : List (List Char × List Char))
        ++ [(normalize_header_name "X-Test".toList, "2".toList)]
    ∧ get_header (add_header ({} : Request) "X-Test".toList "2".toList)
        "x-TEST".toList = some "2".toList :=
  header_storage_case_insensitive {} "X-Test".toList "2".toList
    "x-TEST".toList (by decide) (by decide)

theorem execute_next_short_circuit (f : Request → Response → Response)
    (after : List MiddlewareFn) (req : Request) (h : Response → Response) :
    ∀ (pres : List (Request → Response → Response)) (res : Response),
      execute_next (pres.map passThroughMiddleware
          ++ shortCircuitMiddleware f :: after) req res h
        = f req (pres.foldl (fun acc g => g req acc) res) := by
  intro pres
  induction pres with
  | nil => intro res; simp [execute_next, shortCircuitMiddleware]
  | cons g gs ih =>
    intro res
    simp only [List.map_cons, List.cons_append, execute_next,
      passThroughMiddleware, List.foldl_cons]
    exact ih (g req res)

/-- Claim C7: when a middleware never invokes its `next` continuation, the
final handler and every middleware after it never execute — the chain
result does not depend on them — and the response returned is the one set
by that middleware. -/
theorem middleware_short_circuit_semantics
    (pres : List (Request → Response → Response))
    (f : Request → Response → Response) (after : List MiddlewareFn)
    (req : Request) (res : Response) (h h2 : Response → Response) :
    chain_execute (pres.map passThroughMiddleware
        ++ shortCircuitMiddleware f :: after) req res h
      = f req (pres.foldl (fun acc g => g req acc) res)
    ∧ chain_execute (pres.map passThroughMiddleware
        ++ shortCircuitMiddleware f :: after) req res h
      = chain_execute (pres.map passThroughMiddleware
          ++ [shortCircuitMiddleware f]) req res h2 := by
  have h1 := execute_next_short_circuit f after req h pres res
  have h3 := execute_next_short_circuit f [] req h2 pres res
  exact ⟨h1, by rw [chain_execute, h1, chain_execute, h3]⟩

/-- Claim C8: once `set_value` or `set_exception` succeeded on a promise,
any further `set_value` or `set_exception` call raises the misuse error
(the pointer was reset after fulfilment, so the code reports
`Promise is not valid`), the result stored by the first call is kept, and
nothing is silently ignored. -/
theorem promise_second_set_raises {T : Type} (p p2 : Promise T) (v : T)
    (e : List Char)
    (hfirst : set_value p v = Except.ok p2
      ∨ set_exception p e = Except.ok p2) :
    ∀ (w : T) (e2 : List Char),
      set_value p2 w = Except.error "Promise is not valid".toList
      ∧ set_exception p2 e2 = Except.error "Promise is not valid".toList
      ∧ p2.ptr = false
      ∧ (set_value p v = Except.ok p2 → p2.state = some (Except.ok v))
      ∧ (set_exception p e = Except.ok p2 →
          p2.state = some (Except.error e)) := by
  have hp2 : p2.ptr = false := by
    rcases hfirst with h | h
    · unfold set_value at h
      split at h
      · exact absurd h (by simp)
      · split at h
        · exact absurd h (by simp)
        · cases h; rfl
    · unfold set_exception at h
      split at h
      · exact absurd h (by simp)
      · split at h
        · exact absurd h (by simp)
        · cases h; rfl
  intro w e2
  refine ⟨?_, ?_, hp2, ?_, ?_⟩
  · unfold set_value; rw [if_pos hp2]
  · unfold set_exception; rw [if_pos hp2]
  · intro h
    unfold set_value at h
    split at h
    · exact absurd h (by simp)
    · split at h
      · exact absurd h (by simp)
      · cases h; rfl
  · intro h
    unfold set_exception at h
    split at h
    · exact absurd h (by simp)
    · split at h
      · exact absurd h (by simp)
      · cases h; rfl

/-- Witness for C8: fulfilling a fresh promise with 7 and calling either
setter again. -/
theorem promise_second_set_raises_witness :
    set_value (⟨false, some (Except.ok 7)⟩ : Promise Nat) 5
      = Except.error "Promise is not valid".toList
    ∧ set_exception (⟨false, some (Except.ok 7)⟩ : Promise Nat) "x".toList
      = Except.error "Promise is not valid".toList := by
  have h := promise_second_set_raises Promise.fresh
    (⟨false, some (Except.ok 7)⟩ : Promise Nat) 7 [] (Or.inl rfl)
    5 "x".toList
  exact ⟨h.1, h.2.1⟩

/-- Claim C9: `Response::is_complete` returns true exactly when the body is
non-empty or the status code is 204 or 304. -/
theorem response_is_complete_characterization (r : Response) :
    is_complete r = true
      ↔ (r.body ≠ [] ∨ r.status_code = 204 ∨ r.status_code = 304) := by
  simp [is_complete, List.isEmpty_iff, or_assoc]

/-- Claim C10: without a `Connection` header, `is_keep_alive` holds exactly
for version HTTP/1.1; with one, it holds exactly when the header value
contains the substring `keep-alive`. -/
theorem keep_alive_header_semantics (r : Request) :
    (get_header r "Connection".toList = none →
      (is_keep_alive r = true ↔ r.version = HttpVersion.HTTP_1_1))
    ∧ ∀ v, get_header r "Connection".toList = some v →
        (is_keep_alive r = true ↔ hasSubstr "keep-alive".toList v = true) := by
  constructor
  · intro h
    simp only [is_keep_alive, h, beq_iff_eq]
  · intro v h
    simp only [is_keep_alive, h]

/-- Witness for C10: a header-free HTTP/1.1 request, and a request carrying
`Connection: keep-alive`. -/
theorem keep_alive_header_semantics_witness :
    (is_keep_alive ({} : Request) = true
      ↔ ({} : Request).version = HttpVersion.HTTP_1_1)
    ∧ (is_keep_alive (add_header {} "Connection".toList "keep-alive".toList)
          = true
        ↔ hasSubstr "keep-alive".toList "keep-alive".toList = true) :=
  ⟨(keep_alive_header_semantics {}).1 (by decide),
   (keep_alive_header_semantics
      (add_header {} "Connection".toList "keep-alive".toList)).2
     "keep-alive".toList (by decide)⟩

end HttpFramework
